import Mathlib

/-!
Verification of the `int_stack` kernel module (integer LIFO buffer device).

The development shallowly embeds the driver's store operations:
`resize_buffer`, `buffer_write` (push), `buffer_read` (pop) and
`buffer_ioctl` (the four control commands), translated from the C source,
together with the USB-presence-gated entry points of the hot-plug variant
(`lab5_buffer_*`).  Machine `size_t` values are modelled as `Nat`, stored
`int` values as `Int`, the backing array as a `List Int` whose length is
the capacity (kzalloc zero-initialises it), and the fallible external
effects (kzalloc, copy_from_user, copy_to_user) as explicit boolean
success parameters.  Each operation returns the C return code together
with the post-state of the device buffer.
-/

namespace IntStack

/-- Relevant errno codes used by the driver (returned negated). -/
def ENOMEM : Int := 12

def EFAULT : Int := 14

def ENODEV : Int := 19

def EINVAL : Int := 22

def ENOTTY : Int := 25

def ENOSPC : Int := 28

/-- `struct buffer_stats`: the four atomic usage counters. -/
structure BufferStats where
  push_count : Nat
  pop_count : Nat
  overflow_count : Nat
  underflow_count : Nat
deriving DecidableEq, Repr

/-- `struct integer_buffer`: the backing array (length = `capacity`,
NULL modelled as `[]`), capacity, position (= occupied count) and stats.
The mutex only serialises operations and carries no data, so it is not
modelled. -/
structure IntegerBuffer where
  elements : List Int
  capacity : Nat
  position : Nat
  stats : BufferStats
deriving DecidableEq, Repr

/-- Return code plus post-state, for operations without an output value. -/
structure OpResult where
  ret : Int
  buf : IntegerBuffer
deriving DecidableEq, Repr

/-- Return code, optional value copied out to userspace, and post-state. -/
structure ValResult where
  ret : Int
  out : Option Int
  buf : IntegerBuffer
deriving DecidableEq, Repr

def incPush (s : BufferStats) : BufferStats :=
  { s with push_count := s.push_count + 1 }

def incPop (s : BufferStats) : BufferStats :=
  { s with pop_count := s.pop_count + 1 }

def incOverflow (b : IntegerBuffer) : IntegerBuffer :=
  { b with stats := { b.stats with overflow_count := b.stats.overflow_count + 1 } }

def incUnderflow (b : IntegerBuffer) : IntegerBuffer :=
  { b with stats := { b.stats with underflow_count := b.stats.underflow_count + 1 } }

/-- `resize_buffer(new_capacity)`.  `allocOk` models whether the
`kzalloc` call succeeds.  `new_capacity == 0` frees the array and zeroes
capacity and position; otherwise a fresh zero-initialised array of the
new length is allocated, the first `min(position, new_capacity)` elements
are copied over (when the old array is non-NULL and non-empty), and
position is clamped to the amount copied. -/
def resize_buffer (allocOk : Bool) (new_capacity : Nat) (b : IntegerBuffer) :
    OpResult :=
  if new_capacity = 0 then
    ⟨0, { b with elements := [], capacity := 0, position := 0 }⟩
  else if allocOk = false then
    ⟨-ENOMEM, b⟩
  else if b.elements ≠ [] ∧ 0 < b.position then
    let copy_size := min b.position new_capacity
    ⟨0, { b with
          elements := b.elements.take copy_size ++
                        List.replicate (new_capacity - copy_size) 0,
          capacity := new_capacity,
          position := copy_size }⟩
  else
    ⟨0, { b with
          elements := List.replicate new_capacity 0,
          capacity := new_capacity,
          position := 0 }⟩

/-- The tail of `buffer_write` after the capacity check: store `value` at
index `position`, bump `position` and the push counter, return
`sizeof(int)`. -/
def push_value (value : Int) (b : IntegerBuffer) : OpResult :=
  ⟨4, { b with
        elements := b.elements.set b.position value,
        position := b.position + 1,
        stats := incPush b.stats }⟩

/-- `buffer_write` (push).  `byte_count` is the userspace write size
(`sizeof(int) = 4`), `copyOk` models `copy_from_user` success,
`auto_resize` is the `enable_auto_resize` module parameter and `allocOk`
models allocation success inside an automatic-growth resize. -/
def buffer_write (auto_resize allocOk copyOk : Bool) (byte_count : Nat)
    (value : Int) (b : IntegerBuffer) : OpResult :=
  if byte_count ≠ 4 then ⟨-EINVAL, b⟩
  else if copyOk = false then ⟨-EFAULT, b⟩
  else if b.capacity ≤ b.position then
    if auto_resize then
      let r := resize_buffer allocOk (max (b.capacity * 2) 8) b
      if r.ret < 0 then ⟨-ENOSPC, incOverflow r.buf⟩
      else push_value value r.buf
    else ⟨-ENOSPC, incOverflow b⟩
  else push_value value b

/-- `buffer_read` (pop).  `byte_count` is the userspace read size and
`copyOk` models `copy_to_user` success.  An empty buffer returns 0 (EOF)
and bumps the underflow counter; otherwise position is decremented, the
top element fetched, and on copy failure position is restored. -/
def buffer_read (copyOk : Bool) (byte_count : Nat) (b : IntegerBuffer) :
    ValResult :=
  if byte_count < 4 then ⟨-EINVAL, none, b⟩
  else if b.position = 0 then ⟨0, none, incUnderflow b⟩
  else
    let b1 := { b with position := b.position - 1 }
    let value := b1.elements.getD b1.position 0
    if copyOk = false then
      ⟨-EFAULT, none, { b1 with position := b1.position + 1 }⟩
    else
      ⟨4, some value, { b1 with stats := incPop b1.stats }⟩

/-- The four ioctl commands plus the default (unrecognised) case; the
argument of `INT_STACK_SET_MAX_SIZE` is the `int` copied from userspace. -/
inductive IoctlCmd where
  | setMaxSize (arg : Int)
  | getCapacity
  | getUsage
  | clearBuffer
  | unknown
deriving DecidableEq, Repr

/-- `buffer_ioctl`.  `copyOk` models success of the `copy_from_user` /
`copy_to_user` in the respective branches, `allocOk` allocation success
inside `resize_buffer`. -/
def buffer_ioctl (allocOk copyOk : Bool) (cmd : IoctlCmd)
    (b : IntegerBuffer) : ValResult :=
  match cmd with
  | .setMaxSize arg =>
      if copyOk = false then ⟨-EFAULT, none, b⟩
      else if arg < 0 then ⟨-EINVAL, none, b⟩
      else
        let r := resize_buffer allocOk arg.toNat b
        ⟨r.ret, none, r.buf⟩
  | .getCapacity =>
      if copyOk = false then ⟨-EFAULT, none, b⟩
      else ⟨0, some (b.capacity : Int), b⟩
  | .getUsage =>
      if copyOk = false then ⟨-EFAULT, none, b⟩
      else ⟨0, some (b.position : Int), b⟩
  | .clearBuffer => ⟨0, none, { b with position := 0 }⟩
  | .unknown => ⟨-ENOTTY, none, b⟩

/-- Initial stats (`init_stats`): all four counters zero. -/
def init_stats : BufferStats := ⟨0, 0, 0, 0⟩

/-- The freshly initialised device buffer (`integer_buffer_init` before
the optional initial resize): NULL array, capacity 0, position 0. -/
def init_buffer : IntegerBuffer := ⟨[], 0, 0, init_stats⟩

/-- USB-gated `buffer_open` of the hot-plug variant: fails with
`-ENODEV` while the key is absent. -/
def lab5_buffer_open (usb_key_present : Bool) : Int :=
  if usb_key_present = false then -ENODEV else 0

/-- USB-gated `buffer_read`: the presence check precedes everything. -/
def lab5_buffer_read (usb_key_present copyOk : Bool) (byte_count : Nat)
    (b : IntegerBuffer) : ValResult :=
  if usb_key_present = false then ⟨-ENODEV, none, b⟩
  else buffer_read copyOk byte_count b

/-- USB-gated `buffer_write`: the presence check precedes everything. -/
def lab5_buffer_write (usb_key_present auto_resize allocOk copyOk : Bool)
    (byte_count : Nat) (value : Int) (b : IntegerBuffer) : OpResult :=
  if usb_key_present = false then ⟨-ENODEV, b⟩
  else buffer_write auto_resize allocOk copyOk byte_count value b

/-- USB-gated `buffer_ioctl`: the presence check precedes everything. -/
def lab5_buffer_ioctl (usb_key_present allocOk copyOk : Bool)
    (cmd : IoctlCmd) (b : IntegerBuffer) : ValResult :=
  if usb_key_present = false then ⟨-ENODEV, none, b⟩
  else buffer_ioctl allocOk copyOk cmd b

/-- The structural invariant of the device buffer: the occupied count
never exceeds the capacity and the backing array has exactly `capacity`
slots. -/
def BufInv (b : IntegerBuffer) : Prop :=
  b.position ≤ b.capacity ∧ b.elements.length = b.capacity

instance (b : IntegerBuffer) : Decidable (BufInv b) :=
  inferInstanceAs (Decidable (_ ∧ _))

/-- Push a whole list of values, oldest first, via `buffer_write` with
growth disabled and userspace transfers succeeding. -/
def pushList (vs : List Int) (b : IntegerBuffer) : IntegerBuffer :=
  vs.foldl (fun st v => (buffer_write false true true 4 v st).buf) b

/-- Pop up to `n` values via `buffer_read`, stopping at the EOF result,
returning the values in pop order together with the final state. -/
def popList : Nat → IntegerBuffer → List Int × IntegerBuffer
  | 0, b => ([], b)
  | Nat.succ n, b =>
      let r := buffer_read true 4 b
      match r.out with
      | some v =>
          let p := popList n r.buf
          (v :: p.1, p.2)
      | none => ([], r.buf)

end IntStack

namespace IntStack

/-! ### List helpers -/

theorem getD_set_self (l : List Int) (i : Nat) (a : Int) (h : i < l.length) :
    (l.set i a).getD i 0 = a := by
  simp [List.getD_eq_getElem?_getD, List.getElem?_set_self, h]

theorem getD_set_ne (l : List Int) (i j : Nat) (a : Int) (h : i ≠ j) :
    (l.set i a).getD j 0 = l.getD j 0 := by
  simp [List.getD_eq_getElem?_getD, List.getElem?_set_ne h]

/-! ### Basic behaviour of the store operations -/

/-- A failed allocation leaves `resize_buffer` with `-ENOMEM` and the
buffer untouched. -/
theorem resize_buffer_fail (k : Nat) (b : IntegerBuffer) (hk : k ≠ 0) :
    resize_buffer false k b = ⟨-ENOMEM, b⟩ := by
  simp [resize_buffer, hk]

/-- Successful resize, under the structural invariant: the new array gets
the oldest `min position k` elements at their original indices, padded
with zeros, and position is clamped. -/
theorem resize_buffer_ok (k : Nat) (b : IntegerBuffer) (hinv : BufInv b)
    (hk : k ≠ 0) :
    resize_buffer true k b =
      ⟨0, { b with
            elements := b.elements.take (min b.position k) ++
                          List.replicate (k - min b.position k) 0,
            capacity := k,
            position := min b.position k }⟩ := by
  obtain ⟨hpc, hlen⟩ := hinv
  by_cases hb : b.elements ≠ [] ∧ 0 < b.position
  · simp [resize_buffer, hk, hb]
  · have hp0 : b.position = 0 := by
      rcases not_and_or.mp hb with h | h
      · have : b.elements = [] := not_not.mp h
        have : b.capacity = 0 := by
          rw [← hlen, this]; rfl
        omega
      · omega
    simp [resize_buffer, hk, hb, hp0]

/-- `resize_buffer` preserves the structural invariant. -/
theorem resize_buffer_inv (allocOk : Bool) (k : Nat) (b : IntegerBuffer)
    (hinv : BufInv b) : BufInv (resize_buffer allocOk k b).buf := by
  obtain ⟨hpc, hlen⟩ := hinv
  unfold resize_buffer
  split
  · exact ⟨Nat.le_refl 0, rfl⟩
  · split
    · exact ⟨hpc, hlen⟩
    · split
      · refine ⟨Nat.min_le_right _ _, ?_⟩
        have h1 : min b.position k ≤ b.elements.length := by
          have := Nat.min_le_left b.position k
          omega
        simp [List.length_take, List.length_replicate]
        omega
      · exact ⟨Nat.zero_le _, by simp⟩

/-- A push on a non-full buffer takes the plain `push_value` path, for
any growth / allocation configuration. -/
theorem buffer_write_push (ar al : Bool) (v : Int) (b : IntegerBuffer)
    (h : b.position < b.capacity) :
    buffer_write ar al true 4 v b = push_value v b := by
  have h2 : ¬ b.capacity ≤ b.position := Nat.not_le.mpr h
  simp [buffer_write, h2]

/-- A pop from a non-empty buffer returns the top element and decrements
position. -/
theorem buffer_read_pop (b : IntegerBuffer) (h : b.position ≠ 0) :
    buffer_read true 4 b =
      ⟨4, some (b.elements.getD (b.position - 1) 0),
        { b with position := b.position - 1, stats := incPop b.stats }⟩ := by
  simp [buffer_read, h]

/-! ### Claim theorems: simple error paths -/

/-- Claim C3: while the presence gate is Absent (`usb_key_present = 0`),
open, push, pop and every control call fail with `-ENODEV` and the
device buffer — count, capacity, elements and all statistics counters —
is returned bit-for-bit unchanged. -/
theorem c3_absent_gate_rejects_untouched (copyOk allocOk auto_resize : Bool)
    (byte_count : Nat) (value : Int) (cmd : IoctlCmd) (b : IntegerBuffer) :
    lab5_buffer_open false = -ENODEV ∧
    lab5_buffer_read false copyOk byte_count b = ⟨-ENODEV, none, b⟩ ∧
    lab5_buffer_write false auto_resize allocOk copyOk byte_count value b =
      ⟨-ENODEV, b⟩ ∧
    lab5_buffer_ioctl false allocOk copyOk cmd b = ⟨-ENODEV, none, b⟩ :=
  ⟨rfl, rfl, rfl, rfl⟩

/-- Claim C5: a pop on an empty buffer (with a large-enough read size)
returns the empty result 0, leaves the store unchanged apart from the
underflow counter, which increments by exactly 1. -/
theorem c5_pop_empty_underflow (b : IntegerBuffer) (copyOk : Bool)
    (byte_count : Nat) (hbc : 4 ≤ byte_count) (hempty : b.position = 0) :
    buffer_read copyOk byte_count b = ⟨0, none, incUnderflow b⟩ := by
  have h1 : ¬ byte_count < 4 := Nat.not_lt.mpr hbc
  simp [buffer_read, h1, hempty]

/-- Claim C8: failing operations are atomic — a resize whose allocation
fails returns `-ENOMEM` with the buffer exactly as before, and a pop
whose copy to userspace fails returns `-EFAULT` with position restored
and nothing else touched. -/
theorem c8_failure_atomicity (b : IntegerBuffer) (k byte_count : Nat)
    (hk : k ≠ 0) (hbc : 4 ≤ byte_count) (hpos : 0 < b.position) :
    resize_buffer false k b = ⟨-ENOMEM, b⟩ ∧
    buffer_read false byte_count b = ⟨-EFAULT, none, b⟩ := by
  refine ⟨resize_buffer_fail k b hk, ?_⟩
  have h1 : ¬ byte_count < 4 := Nat.not_lt.mpr hbc
  have h2 : b.position ≠ 0 := Nat.pos_iff_ne_zero.mp hpos
  have h3 : b.position - 1 + 1 = b.position := Nat.succ_pred_eq_of_pos hpos
  rcases b with ⟨el, cap, pos, st⟩
  simp_all [buffer_read]

/-- Claim C10: a read of fewer than `sizeof(int)` bytes and a write of a
byte count other than `sizeof(int)` both fail with `-EINVAL` before
touching the buffer: elements, capacity, count and all four counters are
unchanged. -/
theorem c10_short_transfer_einval (b : IntegerBuffer)
    (copyOk allocOk auto_resize : Bool) (rc wc : Nat) (v : Int)
    (hr : rc < 4) (hw : wc ≠ 4) :
    buffer_read copyOk rc b = ⟨-EINVAL, none, b⟩ ∧
    buffer_write auto_resize allocOk copyOk wc v b = ⟨-EINVAL, b⟩ := by
  constructor
  · simp [buffer_read, hr]
  · simp [buffer_write, hw]

end IntStack

namespace IntStack

/-- `buffer_write` preserves the structural invariant. -/
theorem buffer_write_inv (ar al cp : Bool) (bc : Nat) (v : Int)
    (b : IntegerBuffer) (hinv : BufInv b) :
    BufInv (buffer_write ar al cp bc v b).buf := by
  obtain ⟨hpc, hlen⟩ := hinv
  unfold buffer_write
  split
  · exact ⟨hpc, hlen⟩
  · split
    · exact ⟨hpc, hlen⟩
    · split
      · split
        · rename_i hfull hauto
          have hfull' : b.position = b.capacity := Nat.le_antisymm hpc hfull
          have hk : max (b.capacity * 2) 8 ≠ 0 := by omega
          cases al with
          | false =>
              rw [resize_buffer_fail _ b hk]
              simp
              exact ⟨hpc, hlen⟩
          | true =>
              rw [resize_buffer_ok _ b ⟨hpc, hlen⟩ hk]
              have hm : min b.position (max (b.capacity * 2) 8) = b.position := by
                omega
              have hlt : ¬ ((0 : Int) ≤ 0 ∧ ¬ (0 : Int) = 0) := by omega
              simp [push_value, hm, BufInv, List.length_take]
              constructor
              · omega
              · omega
        · exact ⟨hpc, hlen⟩
      · rename_i hnf
        have : b.position < b.capacity := Nat.lt_of_not_le hnf
        refine ⟨this, by simp [push_value, hlen]⟩

/-- `buffer_read` preserves the structural invariant. -/
theorem buffer_read_inv (cp : Bool) (bc : Nat) (b : IntegerBuffer)
    (hinv : BufInv b) : BufInv (buffer_read cp bc b).buf := by
  obtain ⟨hpc, hlen⟩ := hinv
  unfold buffer_read
  split
  · exact ⟨hpc, hlen⟩
  · split
    · exact ⟨hpc, hlen⟩
    · split
      · exact ⟨by simp; omega, by simpa using hlen⟩
      · exact ⟨by simp; omega, by simpa using hlen⟩

/-- `buffer_ioctl` preserves the structural invariant. -/
theorem buffer_ioctl_inv (al cp : Bool) (cmd : IoctlCmd) (b : IntegerBuffer)
    (hinv : BufInv b) : BufInv (buffer_ioctl al cp cmd b).buf := by
  obtain ⟨hpc, hlen⟩ := hinv
  unfold buffer_ioctl
  match cmd with
  | .setMaxSize arg =>
      simp only
      split
      · exact ⟨hpc, hlen⟩
      · split
        · exact ⟨hpc, hlen⟩
        · exact resize_buffer_inv al arg.toNat b ⟨hpc, hlen⟩
  | .getCapacity =>
      simp only
      split
      · exact ⟨hpc, hlen⟩
      · exact ⟨hpc, hlen⟩
  | .getUsage =>
      simp only
      split
      · exact ⟨hpc, hlen⟩
      · exact ⟨hpc, hlen⟩
  | .clearBuffer => exact ⟨Nat.zero_le _, hlen⟩
  | .unknown => exact ⟨hpc, hlen⟩

/-- Claim C7: the invariant `0 ≤ count ≤ capacity` (with the backing
array exactly `capacity` long) holds in the initial state and is
preserved by push, pop and every ioctl command, for every configuration
of growth, allocation and copy outcomes; counts are naturals so neither
can become negative. -/
theorem c7_count_le_capacity (b : IntegerBuffer) (ar al cp : Bool)
    (bc : Nat) (v : Int) (cmd : IoctlCmd) (hinv : BufInv b) :
    BufInv init_buffer ∧
    BufInv (buffer_write ar al cp bc v b).buf ∧
    BufInv (buffer_read cp bc b).buf ∧
    BufInv (buffer_ioctl al cp cmd b).buf :=
  ⟨⟨Nat.le_refl 0, rfl⟩, buffer_write_inv ar al cp bc v b hinv,
    buffer_read_inv cp bc b hinv, buffer_ioctl_inv al cp cmd b hinv⟩

end IntStack

namespace IntStack

/-- Claim C2: a successful set-capacity to `k > 0` on a store holding
`count` elements keeps the oldest `min count k` elements at indices
`0..min count k - 1` unchanged: shrinking below `count` keeps exactly the
oldest `k` and sets `count` to `k`, while resizing to `k ≥ count` keeps
all `count` elements at their indices and leaves `count` unchanged. -/
theorem c2_resize_truncation (k : Nat) (b : IntegerBuffer)
    (hinv : BufInv b) (hk : 0 < k) :
    (resize_buffer true k b).ret = 0 ∧
    (resize_buffer true k b).buf.capacity = k ∧
    (k < b.position →
      (resize_buffer true k b).buf.position = k ∧
      (resize_buffer true k b).buf.elements.take k = b.elements.take k) ∧
    (b.position ≤ k →
      (resize_buffer true k b).buf.position = b.position ∧
      (resize_buffer true k b).buf.elements.take b.position =
        b.elements.take b.position) := by
  obtain ⟨hpc, hlen⟩ := hinv
  rw [resize_buffer_ok k b ⟨hpc, hlen⟩ (by omega)]
  refine ⟨rfl, rfl, ?_, ?_⟩
  · intro hlt
    have hm : min b.position k = k := by omega
    have htk : k ≤ (b.elements.take k).length := by
      simp [List.length_take]
      omega
    rw [hm]
    refine ⟨rfl, ?_⟩
    simp only
    rw [List.take_append_of_le_length htk, List.take_take]
    simp
  · intro hle
    have hm : min b.position k = b.position := by omega
    have htk : b.position ≤ (b.elements.take b.position).length := by
      simp [List.length_take]
      omega
    rw [hm]
    refine ⟨rfl, ?_⟩
    simp only
    rw [List.take_append_of_le_length htk, List.take_take]
    simp

/-- Claim C6: set-capacity 0 always succeeds, for any allocation
outcome: it drops the backing array and zeroes capacity and count; a
subsequent get-usage and get-capacity both report 0, and a subsequent
push (growth disabled) fails because the capacity is 0. -/
theorem c6_set_capacity_zero (b : IntegerBuffer) (al al2 : Bool) (v : Int) :
    buffer_ioctl al true (.setMaxSize 0) b =
      ⟨0, none, { b with elements := [], capacity := 0, position := 0 }⟩ ∧
    (buffer_ioctl al2 true .getUsage
        (buffer_ioctl al true (.setMaxSize 0) b).buf).out = some 0 ∧
    (buffer_ioctl al2 true .getCapacity
        (buffer_ioctl al true (.setMaxSize 0) b).buf).out = some 0 ∧
    buffer_write false al2 true 4 v
        (buffer_ioctl al true (.setMaxSize 0) b).buf =
      ⟨-ENOSPC,
        incOverflow { b with elements := [], capacity := 0, position := 0 }⟩ := by
  refine ⟨?_, ?_, ?_, ?_⟩ <;>
    simp [buffer_ioctl, resize_buffer, buffer_write]

end IntStack

namespace IntStack

/-- Claim C4: a push on a full store (`count = capacity`).  With growth
disabled it fails with `-ENOSPC`, leaves the store at `count = capacity`
and bumps only the overflow counter.  With growth enabled and the
allocation failing, it also fails with `-ENOSPC` (not `-ENOMEM`) and
bumps the overflow counter.  With growth enabled and allocation
succeeding, the store is first resized to `max(capacity*2, 8)`, then the
value is written at index `count`, and `count` and the push counter are
incremented. -/
theorem c4_push_on_full (b : IntegerBuffer) (v : Int) (al : Bool)
    (hinv : BufInv b) (hfull : b.position = b.capacity) :
    buffer_write false al true 4 v b = ⟨-ENOSPC, incOverflow b⟩ ∧
    buffer_write true false true 4 v b = ⟨-ENOSPC, incOverflow b⟩ ∧
    (buffer_write true true true 4 v b).ret = 4 ∧
    (buffer_write true true true 4 v b).buf.capacity =
      max (b.capacity * 2) 8 ∧
    (buffer_write true true true 4 v b).buf.position = b.position + 1 ∧
    (buffer_write true true true 4 v b).buf.elements.getD b.position 0 = v ∧
    (buffer_write true true true 4 v b).buf.stats.push_count =
      b.stats.push_count + 1 := by
  obtain ⟨hpc, hlen⟩ := hinv
  have hfl : b.capacity ≤ b.position := Nat.le_of_eq hfull.symm
  have hk : max (b.capacity * 2) 8 ≠ 0 := by omega
  refine ⟨?_, ?_, ?_⟩
  · simp [buffer_write, hfl]
  · simp [buffer_write, hfl]
    rw [resize_buffer_fail _ b hk]
    simp [ENOMEM]
  · have hm : min b.position (max (b.capacity * 2) 8) = b.position := by
      omega
    have hrw : buffer_write true true true 4 v b =
        push_value v ((resize_buffer true (max (b.capacity * 2) 8) b).buf) := by
      simp [buffer_write, hfl]
      rw [resize_buffer_ok _ b ⟨hpc, hlen⟩ hk]
      simp
    rw [hrw, resize_buffer_ok _ b ⟨hpc, hlen⟩ hk]
    simp only [push_value, incPush, hm]
    refine ⟨trivial, trivial, trivial, ?_, trivial⟩
    apply getD_set_self
    simp [List.length_take]
    omega

/-- Claim C9: on a store with `count < capacity`, a push of `v`
immediately followed by a pop returns `v` and restores `count` to its
value before the push, for any growth and allocation configuration. -/
theorem c9_push_pop_round_trip (b : IntegerBuffer) (v : Int) (ar al : Bool)
    (hinv : BufInv b) (hroom : b.position < b.capacity) :
    (buffer_read true 4 (buffer_write ar al true 4 v b).buf).ret = 4 ∧
    (buffer_read true 4 (buffer_write ar al true 4 v b).buf).out = some v ∧
    (buffer_read true 4 (buffer_write ar al true 4 v b).buf).buf.position =
      b.position := by
  obtain ⟨hpc, hlen⟩ := hinv
  rw [buffer_write_push ar al v b hroom]
  have hne : (push_value v b).buf.position ≠ 0 := by
    simp [push_value]
  rw [buffer_read_pop _ hne]
  have hset : ((push_value v b).buf.elements).getD
      ((push_value v b).buf.position - 1) 0 = v := by
    simp only [push_value, Nat.add_sub_cancel]
    exact getD_set_self b.elements b.position v (by omega)
  refine ⟨rfl, ?_, by simp [push_value]⟩
  rw [hset]

end IntStack

namespace IntStack

theorem getD_append_left' (l l2 : List Int) (i : Nat) (h : i < l.length) :
    (l ++ l2).getD i 0 = l.getD i 0 := by
  simp [List.getD_eq_getElem?_getD, List.getElem?_append, h]

theorem getD_append_length (l : List Int) (a : Int) :
    (l ++ [a]).getD l.length 0 = a := by
  simp [List.getD_eq_getElem?_getD,
    List.getElem?_append_right (Nat.le_refl l.length)]

/-- Behaviour of a sequence of pushes that stays within capacity:
capacity and array length are untouched, position advances by the number
of values, the occupied prefix below the old position is untouched, and
the pushed values sit at indices `position .. position + n - 1` in push
order. -/
theorem pushList_spec (vs : List Int) (b : IntegerBuffer) (hinv : BufInv b)
    (hfit : b.position + vs.length ≤ b.capacity) :
    (pushList vs b).capacity = b.capacity ∧
    (pushList vs b).elements.length = b.capacity ∧
    (pushList vs b).position = b.position + vs.length ∧
    (∀ j, j < b.position →
      (pushList vs b).elements.getD j 0 = b.elements.getD j 0) ∧
    (∀ i, i < vs.length →
      (pushList vs b).elements.getD (b.position + i) 0 = vs.getD i 0) := by
  induction vs generalizing b with
  | nil =>
      exact ⟨rfl, hinv.2, rfl, fun j _ => rfl, fun i hi => absurd hi (by simp)⟩
  | cons v vs ih =>
      obtain ⟨hpc, hlen⟩ := hinv
      have hfit' : b.position + (vs.length + 1) ≤ b.capacity := by
        simpa using hfit
      have hroom : b.position < b.capacity := by omega
      have hstep : pushList (v :: vs) b = pushList vs (push_value v b).buf := by
        unfold pushList
        rw [List.foldl_cons, buffer_write_push false true v b hroom]
      have hb1pos : (push_value v b).buf.position = b.position + 1 := rfl
      have hb1cap : (push_value v b).buf.capacity = b.capacity := rfl
      have hb1el : (push_value v b).buf.elements = b.elements.set b.position v :=
        rfl
      have hb1len : (push_value v b).buf.elements.length = b.capacity := by
        rw [hb1el]; simp [hlen]
      have hinv1 : BufInv (push_value v b).buf := by
        refine ⟨?_, hb1len⟩
        rw [hb1pos, hb1cap]; omega
      obtain ⟨c1, c2, c3, c4, c5⟩ :=
        ih (push_value v b).buf hinv1 (by rw [hb1pos, hb1cap]; omega)
      rw [hstep]
      refine ⟨c1.trans hb1cap, c2.trans hb1cap, ?_, ?_, ?_⟩
      · rw [c3, hb1pos]
        simp [List.length_cons]
        omega
      · intro j hj
        have h4 := c4 j (by rw [hb1pos]; omega)
        rw [h4, hb1el, getD_set_ne b.elements b.position j v (by omega)]
      · intro i hi
        match i with
        | 0 =>
            have h4 := c4 b.position (by rw [hb1pos]; omega)
            rw [Nat.add_zero, h4, hb1el,
              getD_set_self b.elements b.position v (by omega)]
            rfl
        | Nat.succ i' =>
            have hi' : i' < vs.length := by
              simp [List.length_cons] at hi; omega
            have h5 := c5 i' hi'
            rw [hb1pos] at h5
            have harith : b.position + (i' + 1) = b.position + 1 + i' := by omega
            rw [harith, h5]
            rfl

/-- Unfolding of a single non-empty pop step inside `popList`. -/
theorem popList_succ (n : Nat) (b : IntegerBuffer) (h : b.position ≠ 0) :
    popList (n + 1) b =
      ((b.elements.getD (b.position - 1) 0) ::
         (popList n { b with position := b.position - 1,
                             stats := incPop b.stats }).1,
       (popList n { b with position := b.position - 1,
                           stats := incPop b.stats }).2) := by
  simp only [popList, buffer_read_pop b h]

/-- Behaviour of a sequence of pops: if the occupied slice directly below
`position` holds the values `ws` (oldest first), popping `ws.length`
times yields exactly `ws.reverse`, decrements position by `ws.length`,
and leaves the array and capacity untouched. -/
theorem popList_spec (ws : List Int) (s : IntegerBuffer)
    (hlen : ws.length ≤ s.position)
    (hslice : ∀ i, i < ws.length →
      s.elements.getD (s.position - ws.length + i) 0 = ws.getD i 0) :
    (popList ws.length s).1 = ws.reverse ∧
    (popList ws.length s).2.position = s.position - ws.length ∧
    (popList ws.length s).2.elements = s.elements ∧
    (popList ws.length s).2.capacity = s.capacity := by
  induction ws using List.reverseRecOn generalizing s with
  | nil => exact ⟨rfl, rfl, rfl, rfl⟩
  | append_singleton ws w ih =>
      have hlen' : (ws ++ [w]).length = ws.length + 1 := by simp
      rw [hlen']
      have hlen2 : ws.length + 1 ≤ s.position := by rw [← hlen']; exact hlen
      have hpos : s.position ≠ 0 := by omega
      rw [popList_succ ws.length s hpos]
      have hw : s.elements.getD (s.position - 1) 0 = w := by
        have hs := hslice ws.length (by rw [hlen']; omega)
        rw [hlen'] at hs
        have harith : s.position - (ws.length + 1) + ws.length =
            s.position - 1 := by omega
        rw [harith] at hs
        rw [hs, getD_append_length]
      have hih := ih { s with position := s.position - 1,
                              stats := incPop s.stats }
        (by simp; omega)
        (by
          intro i hi
          simp only
          have harith : s.position - 1 - ws.length + i =
              s.position - (ws.length + 1) + i := by omega
          rw [harith]
          have hs := hslice i (by rw [hlen']; omega)
          rw [hlen'] at hs
          rw [hs, getD_append_left' ws [w] i hi])
      obtain ⟨i1, i2, i3, i4⟩ := hih
      refine ⟨?_, ?_, i3, i4⟩
      · rw [hw, i1]
        simp
      · rw [i2]
        simp
        omega

/-- Claim C1: for every sequence of pushes that stays within capacity,
the subsequent pops return the pushed values in exact reverse order of
insertion, each pop removing the most recent remaining element, ending
with the occupied count back at its initial value. -/
theorem c1_lifo_order (vs : List Int) (b : IntegerBuffer) (hinv : BufInv b)
    (hfit : b.position + vs.length ≤ b.capacity) :
    (popList vs.length (pushList vs b)).1 = vs.reverse ∧
    (popList vs.length (pushList vs b)).2.position = b.position := by
  obtain ⟨hc, hl, hp, hpre, hsl⟩ := pushList_spec vs b hinv hfit
  have hlen2 : vs.length ≤ (pushList vs b).position := by omega
  have hslice2 : ∀ i, i < vs.length →
      (pushList vs b).elements.getD
        ((pushList vs b).position - vs.length + i) 0 = vs.getD i 0 := by
    intro i hi
    have harith : (pushList vs b).position - vs.length + i =
        b.position + i := by omega
    rw [harith]
    exact hsl i hi
  obtain ⟨p1, p2, _, _⟩ := popList_spec vs (pushList vs b) hlen2 hslice2
  refine ⟨p1, ?_⟩
  rw [p2, hp]
  omega

end IntStack

namespace IntStack

/-- A store holding two values (1 below 2) with one free slot. -/
def demoBuf : IntegerBuffer := ⟨[1, 2, 0], 3, 2, ⟨2, 0, 0, 0⟩⟩

/-- A completely full store of capacity 2. -/
def fullBuf : IntegerBuffer := ⟨[5, 7], 2, 2, init_stats⟩

/-- An empty store of capacity 3. -/
def emptyBuf : IntegerBuffer := ⟨[0, 0, 0], 3, 0, init_stats⟩

/-- Witness for C1: pushing 4, 9, 6 on an empty capacity-3 store and
popping three times yields 6, 9, 4. -/
theorem c1_lifo_order_witness :
    (popList 3 (pushList [4, 9, 6] emptyBuf)).1 = [6, 9, 4] ∧
    (popList 3 (pushList [4, 9, 6] emptyBuf)).2.position = 0 := by
  have h := c1_lifo_order [4, 9, 6] emptyBuf (by decide) (by decide)
  exact h

/-- Witness for C2: shrinking the two-element store to capacity 1 keeps
the oldest element at index 0. -/
theorem c2_resize_truncation_witness :
    (resize_buffer true 1 demoBuf).ret = 0 ∧
    (resize_buffer true 1 demoBuf).buf.position = 1 ∧
    (resize_buffer true 1 demoBuf).buf.elements.take 1 =
      demoBuf.elements.take 1 := by
  have h := c2_resize_truncation 1 demoBuf (by decide) (by decide)
  exact ⟨h.1, (h.2.2.1 (by decide)).1, (h.2.2.1 (by decide)).2⟩

/-- Witness for C4: pushing 9 onto the full capacity-2 store. -/
theorem c4_push_on_full_witness :
    buffer_write false true true 4 9 fullBuf = ⟨-ENOSPC, incOverflow fullBuf⟩ ∧
    buffer_write true false true 4 9 fullBuf = ⟨-ENOSPC, incOverflow fullBuf⟩ ∧
    (buffer_write true true true 4 9 fullBuf).ret = 4 ∧
    (buffer_write true true true 4 9 fullBuf).buf.capacity =
      max (fullBuf.capacity * 2) 8 ∧
    (buffer_write true true true 4 9 fullBuf).buf.position =
      fullBuf.position + 1 ∧
    (buffer_write true true true 4 9 fullBuf).buf.elements.getD
      fullBuf.position 0 = 9 ∧
    (buffer_write true true true 4 9 fullBuf).buf.stats.push_count =
      fullBuf.stats.push_count + 1 :=
  c4_push_on_full fullBuf 9 true (by decide) (by decide)

/-- Witness for C5: popping the empty capacity-3 store. -/
theorem c5_pop_empty_underflow_witness :
    buffer_read true 4 emptyBuf = ⟨0, none, incUnderflow emptyBuf⟩ :=
  c5_pop_empty_underflow emptyBuf true 4 (by decide) (by decide)

/-- Witness for C7: the invariant holds at the initial state and after a
push, a pop and a clear on the two-element store. -/
theorem c7_count_le_capacity_witness :
    BufInv init_buffer ∧
    BufInv (buffer_write false true true 4 5 demoBuf).buf ∧
    BufInv (buffer_read true 4 demoBuf).buf ∧
    BufInv (buffer_ioctl true true .clearBuffer demoBuf).buf :=
  c7_count_le_capacity demoBuf false true true 4 5 .clearBuffer (by decide)

/-- Witness for C8: a failed allocation during resize to 2 and a failed
copy during pop both leave the two-element store untouched. -/
theorem c8_failure_atomicity_witness :
    resize_buffer false 2 demoBuf = ⟨-ENOMEM, demoBuf⟩ ∧
    buffer_read false 4 demoBuf = ⟨-EFAULT, none, demoBuf⟩ :=
  c8_failure_atomicity demoBuf 2 4 (by decide) (by decide) (by decide)

/-- Witness for C9: push 42 then pop on the two-element store returns 42
and restores the count. -/
theorem c9_push_pop_round_trip_witness :
    (buffer_read true 4 (buffer_write false true true 4 42 demoBuf).buf).ret
      = 4 ∧
    (buffer_read true 4 (buffer_write false true true 4 42 demoBuf).buf).out
      = some 42 ∧
    (buffer_read true 4
        (buffer_write false true true 4 42 demoBuf).buf).buf.position
      = demoBuf.position :=
  c9_push_pop_round_trip demoBuf 42 false true (by decide) (by decide)

/-- Witness for C10: a 2-byte read and a 7-byte write are rejected with
`-EINVAL` on the two-element store. -/
theorem c10_short_transfer_einval_witness :
    buffer_read true 2 demoBuf = ⟨-EINVAL, none, demoBuf⟩ ∧
    buffer_write false true true 7 3 demoBuf = ⟨-EINVAL, demoBuf⟩ :=
  c10_short_transfer_einval demoBuf true true false 2 7 3 (by decide)
    (by decide)

end IntStack
